import Mathlib

/-!
Verification of the timeseries-algebra core of the GS-Bot repository
(`gs_quant/timeseries/algebra.py` and the window helpers exercised by
`gs_quant/test/timeseries/test_helper.py`).

A time series is modelled as a list of (date, value) pairs; dates are
naturals, values are exact rationals extended with the IEEE special
values NaN (the missing-marker), +inf and -inf, so that the pandas /
numpy elementwise arithmetic used by the source can be modelled exactly.
-/

namespace GSQuant

/-- A pandas cell value: a finite number (modelled exactly as a rational),
the missing-marker NaN, or a signed infinity. -/
inductive Val : Type where
  | num (q : ℚ)
  | nan
  | inf
  | ninf
deriving DecidableEq, Repr

namespace Val

/-- Whether a value is the missing-marker (what `pandas.isna` reports). -/
def isNan : Val → Bool
  | nan => true
  | _ => false

/-- Whether a value is a finite number. -/
def isNum : Val → Bool
  | num _ => true
  | _ => false

/-- Elementwise addition as performed by `pandas.Series.add` (IEEE-754
semantics on the special values: NaN propagates, inf + (-inf) = NaN). -/
def add : Val → Val → Val
  | nan, _ => nan
  | _, nan => nan
  | num a, num b => num (a + b)
  | num _, inf => inf
  | num _, ninf => ninf
  | inf, num _ => inf
  | ninf, num _ => ninf
  | inf, inf => inf
  | ninf, ninf => ninf
  | inf, ninf => nan
  | ninf, inf => nan

/-- Elementwise subtraction as performed by `pandas.Series.subtract`
(IEEE-754 semantics on the special values: NaN propagates,
inf - inf = NaN). -/
def sub : Val → Val → Val
  | nan, _ => nan
  | _, nan => nan
  | num a, num b => num (a - b)
  | num _, inf => ninf
  | num _, ninf => inf
  | inf, num _ => inf
  | ninf, num _ => ninf
  | inf, inf => nan
  | ninf, ninf => nan
  | inf, ninf => inf
  | ninf, inf => ninf

/-- Elementwise division as performed by `pandas.Series.divide` (numpy
IEEE-754 semantics: a finite positive value divided by zero is +inf, a
negative one is -inf, 0/0 is NaN; no exception is ever raised). -/
def div : Val → Val → Val
  | nan, _ => nan
  | _, nan => nan
  | num a, num b =>
      if b = 0 then (if 0 < a then inf else if a < 0 then ninf else nan)
      else num (a / b)
  | num _, inf => num 0
  | num _, ninf => num 0
  | inf, num b => if b < 0 then ninf else inf
  | ninf, num b => if b < 0 then inf else ninf
  | inf, inf => nan
  | inf, ninf => nan
  | ninf, inf => nan
  | ninf, ninf => nan

/-- Python `max(y, value)` as used in `floor`'s lambda: returns `value`
when `value > y`, otherwise `y`; all comparisons against NaN are false,
so a NaN cell stays NaN. -/
def maxq : Val → ℚ → Val
  | num a, v => num (max a v)
  | nan, _ => nan
  | inf, _ => inf
  | ninf, v => num v

/-- Python `min(y, value)` as used in `ceil`'s lambda: returns `value`
when `value < y`, otherwise `y`; all comparisons against NaN are false,
so a NaN cell stays NaN. -/
def minq : Val → ℚ → Val
  | num a, v => num (min a v)
  | nan, _ => nan
  | inf, v => num v
  | ninf, _ => ninf

end Val

/-- A time series: a finite sequence of (date, value) pairs.  The data
model requires the dates to be strictly increasing; that invariant is an
explicit hypothesis (`SortedDates`) where a result depends on it. -/
def Series : Type := List (ℕ × Val)

instance : DecidableEq Series := inferInstanceAs (DecidableEq (List (ℕ × Val)))

instance : Membership (ℕ × Val) Series := inferInstanceAs (Membership (ℕ × Val) (List (ℕ × Val)))

/-- The date index of a series. -/
def Series.dates (s : Series) : List ℕ := s.map Prod.fst

/-- The invariant of the data model: the date index is strictly increasing. -/
def SortedDates (s : Series) : Prop := s.dates.Pairwise (· < ·)

instance (s : Series) : Decidable (SortedDates s) :=
  inferInstanceAs (Decidable (List.Pairwise _ _))

/-- The value a series holds at a date, when the date is present
(the first matching entry, as a pandas label lookup would find it). -/
def valueAt? (s : Series) (d : ℕ) : Option Val :=
  (List.find? (fun p => p.1 == d) s).map Prod.snd

/-- The value at a date, with NaN (the pandas fill value) as default. -/
def valAt (s : Series) (d : ℕ) : Val := (valueAt? s d).getD Val.nan

/-- The last-known value of a series strictly before a date: the value
at the greatest date of the series below `d`, when one exists. -/
def lastPriorVal (s : Series) (d : ℕ) : Option Val :=
  ((s.filter (fun p => p.1 < d)).getLast?).map Prod.snd

/-- The step-interpolated value of a series at a date: the value at the
greatest date ≤ `d`, or NaN when the series has no observation yet. -/
def stepVal (s : Series) (d : ℕ) : Val :=
  (((s.filter (fun p => p.1 ≤ d)).getLast?).map Prod.snd).getD Val.nan

/-- Merge of two sorted date indices into their sorted union
(pandas index union). -/
def mergeUnion : List ℕ → List ℕ → List ℕ
  | [], ys => ys
  | x :: xs, [] => x :: xs
  | x :: xs, y :: ys =>
      if x < y then x :: mergeUnion xs (y :: ys)
      else if y < x then y :: mergeUnion (x :: xs) ys
      else x :: mergeUnion xs ys
termination_by xs ys => xs.length + ys.length

/-- Merge of two sorted date indices into their sorted intersection
(pandas index intersection). -/
def mergeInter : List ℕ → List ℕ → List ℕ
  | [], _ => []
  | _ :: _, [] => []
  | x :: xs, y :: ys =>
      if x < y then mergeInter xs (y :: ys)
      else if y < x then mergeInter (x :: xs) ys
      else x :: mergeInter xs ys
termination_by xs ys => xs.length + ys.length

/-- The alignment methods of the algebra operations (the members of the
source's `Interpolate` enumeration that the alignment table covers). -/
inductive Interpolate : Type where
  | INTERSECT
  | NAN
  | ZERO
  | STEP
deriving DecidableEq, Repr

/-- Modelled from the spec: `gs_quant.timeseries.datetime.align` is not
among the source files (only its caller `algebra.py` is); reconstructed
from the alignment-policy table of spec section 4.1.  INTERSECT keeps the
intersection of the date indices; NAN, ZERO and STEP keep the union,
filling a date absent from one series with NaN, with 0, or with that
series' last-known value carried forward (NaN when there is no prior
observation). -/
def align (x y : Series) (method : Interpolate) : Series × Series :=
  match method with
  | .INTERSECT =>
      let ds := mergeInter x.dates y.dates
      (ds.map (fun d => (d, valAt x d)), ds.map (fun d => (d, valAt y d)))
  | .NAN =>
      let ds := mergeUnion x.dates y.dates
      (ds.map (fun d => (d, valAt x d)), ds.map (fun d => (d, valAt y d)))
  | .ZERO =>
      let ds := mergeUnion x.dates y.dates
      (ds.map (fun d => (d, (valueAt? x d).getD (Val.num 0))),
       ds.map (fun d => (d, (valueAt? y d).getD (Val.num 0))))
  | .STEP =>
      let ds := mergeUnion x.dates y.dates
      (ds.map (fun d => (d, stepVal x d)), ds.map (fun d => (d, stepVal y d)))

/-- A pandas binary arithmetic method (`Series.add`, `Series.subtract`,
`Series.divide`): the result lives on the union of the two indices and
each side contributes NaN at a date it lacks.  In `algebra.py` it is only
ever applied to an already-aligned pair, on which it acts pointwise. -/
def pdOp (f : Val → Val → Val) (xs ys : Series) : Series :=
  (mergeUnion xs.dates ys.dates).map (fun d => (d, f (valAt xs d) (valAt ys d)))

/-- An operand of the algebra operations: a real-number scalar
(a Python `Real` that is an `int` or `float`, i.e. not NaN or infinite)
or a time series. -/
inductive Operand : Type where
  | scalar (q : ℚ)
  | ser (s : Series)
deriving DecidableEq

/-- The errors the modelled operations can signal: `MqValueError`
(invalid argument), Python's `ZeroDivisionError`, and the
`AssertionError` of a failed `assert` statement. -/
inductive MqError : Type where
  | valueError
  | zeroDivisionError
  | assertionError
deriving DecidableEq, Repr

/-- Coerce an operand to a series for alignment: a series stands as is,
and per spec section 4.1 a scalar is broadcast to a constant series over
the other operand's dates. -/
def toSeries (o : Operand) (other : Series) : Series :=
  match o with
  | .ser s => s
  | .scalar q => other.map (fun p => (p.1, Val.num q))

/-- The series carried by the other operand, for broadcasting
(an empty index when both operands are scalars, a case the series path
never receives). -/
def otherSeries : Operand → Series
  | .ser s => s
  | .scalar _ => []

/-- `algebra.add`: both operands scalar gives scalar addition, otherwise
the operands are aligned with the given method (the source's default is
`Interpolate.STEP`) and added pointwise by `pandas.Series.add`. -/
def add (x y : Operand) (method : Interpolate) : Operand :=
  match x, y with
  | .scalar a, .scalar b => .scalar (a + b)
  | _, _ =>
      let p := align (toSeries x (otherSeries y)) (toSeries y (otherSeries x)) method
      .ser (pdOp Val.add p.1 p.2)

/-- `algebra.subtract`: both operands scalar gives scalar subtraction,
otherwise the operands are aligned with the given method (the source's
default is `Interpolate.STEP`) and subtracted pointwise by
`pandas.Series.subtract`. -/
def subtract (x y : Operand) (method : Interpolate) : Operand :=
  match x, y with
  | .scalar a, .scalar b => .scalar (a - b)
  | _, _ =>
      let p := align (toSeries x (otherSeries y)) (toSeries y (otherSeries x)) method
      .ser (pdOp Val.sub p.1 p.2)

/-- `algebra.divide`: both operands scalar executes Python's `x / y`,
which raises `ZeroDivisionError` when the divisor is zero; otherwise the
operands are aligned with the given method (the source's default is
`Interpolate.STEP`) and divided pointwise by `pandas.Series.divide`,
which never raises. -/
def divide (x y : Operand) (method : Interpolate) : Except MqError Operand :=
  match x, y with
  | .scalar a, .scalar b =>
      if b = 0 then .error .zeroDivisionError else .ok (.scalar (a / b))
  | _, _ =>
      let p := align (toSeries x (otherSeries y)) (toSeries y (otherSeries x)) method
      .ok (.ser (pdOp Val.div p.1 p.2))

/-- Non-strict monotonicity of a date index, as reported by pandas
`Index.is_monotonic_increasing` (equal consecutive labels are allowed). -/
def monotonicIncr : List ℕ → Bool
  | [] => true
  | [_] => true
  | a :: b :: t => a ≤ b && monotonicIncr (b :: t)

/-- `algebra.floor`: asserts `x.index.is_monotonic_increasing` (an
`AssertionError` when it fails) and applies `max(y, value)` to every
cell. -/
def floor (x : Series) (value : ℚ) : Except MqError Series :=
  if monotonicIncr x.dates then .ok (x.map (fun p => (p.1, Val.maxq p.2 value)))
  else .error .assertionError

/-- `algebra.ceil`: asserts `x.index.is_monotonic_increasing` (an
`AssertionError` when it fails) and applies `min(y, value)` to every
cell. -/
def ceil (x : Series) (value : ℚ) : Except MqError Series :=
  if monotonicIncr x.dates then .ok (x.map (fun p => (p.1, Val.minq p.2 value)))
  else .error .assertionError

/-- The source's `FilterOperator` enumeration. -/
inductive FilterOperator : Type where
  | LESS
  | GREATER
  | L_EQUALS
  | G_EQUALS
  | EQUALS
  | N_EQUALS
deriving DecidableEq, Repr

/-- The pandas comparison of a cell against a finite numeric threshold,
as in `x == value`, `x > value`, ...: IEEE-754 semantics, under which
every ordered comparison and equality against NaN is false and only
`!=` against NaN is true. -/
def cmpVal (op : FilterOperator) (x : Val) (v : ℚ) : Bool :=
  match op, x with
  | .EQUALS, .num a => a == v
  | .GREATER, .num a => v < a
  | .LESS, .num a => a < v
  | .L_EQUALS, .num a => a ≤ v
  | .G_EQUALS, .num a => v ≤ a
  | .N_EQUALS, .num a => a != v
  | .N_EQUALS, .nan => true
  | _, .nan => false
  | .EQUALS, .inf => false
  | .GREATER, .inf => true
  | .LESS, .inf => false
  | .L_EQUALS, .inf => false
  | .G_EQUALS, .inf => true
  | .N_EQUALS, .inf => true
  | .EQUALS, .ninf => false
  | .GREATER, .ninf => false
  | .LESS, .ninf => true
  | .L_EQUALS, .ninf => true
  | .G_EQUALS, .ninf => false
  | .N_EQUALS, .ninf => true

/-- `algebra.filter_`: with neither operator nor value, `x.dropna(...)`
removes the NaN entries; an operator without a value raises
`MqValueError`; a value without an operator falls through the operator
dispatch and raises `MqValueError` (the `Unexpected operator` branch);
otherwise the comparison builds the removal mask and
`x.drop(x[remove].index)` drops every entry whose date label carries a
masked entry. -/
def filter_ (x : Series) (operator : Option FilterOperator) (value : Option ℚ) :
    Except MqError Series :=
  match operator, value with
  | .none, .none => .ok (x.filter (fun p => !p.2.isNan))
  | .some _, .none => .error .valueError
  | .none, .some _ => .error .valueError
  | .some op, .some v =>
      let removeDates := (x.filter (fun p => cmpVal op p.2 v)).map Prod.fst
      .ok (x.filter (fun p => !decide (p.1 ∈ removeDates)))

/-- A Python number as returned by `sqrt`'s scalar path: either an `int`
or a `float` (the float given exactly, as the dyadic rational it is). -/
inductive PyNum : Type where
  | int (n : ℤ)
  | float (q : ℚ)
deriving DecidableEq, Repr

/-- The binade exponent of the square root of `n`: the `e` with
`2 ^ e ≤ √n < 2 ^ (e + 1)`, computed as `⌊log2 n / 2⌋`. -/
def sqrtExp (n : ℕ) : ℕ := Nat.log 2 n / 2

/-- The nearest integer to `√N` (rounding up exactly when
`√N ≥ ⌊√N⌋ + 1/2`, i.e. `(2⌊√N⌋ + 1)² ≤ 4N`); a tie, `√N = ⌊√N⌋ + 1/2`
exactly, is impossible because `√N` is an integer or irrational. -/
def roundSqrtSig (N : ℕ) : ℕ :=
  if (2 * N.sqrt + 1) ^ 2 ≤ 4 * N then N.sqrt + 1 else N.sqrt

/-- Model of CPython `math.sqrt` on a nonnegative integer argument below
`2 ^ 53` (such arguments convert to binary64 exactly): the IEEE-754
correctly rounded binary64 square root.  With `e` the binade exponent of
`√n` and `s = 52 - e`, the representable binary64 values around `√n` are
the multiples of `2 ^ (-s)`, so the correctly rounded result is the
nearest integer to `√(n * 4 ^ s)` divided by `2 ^ s`. -/
def sqrtFloat (n : ℕ) : ℚ :=
  if n = 0 then 0
  else (roundSqrtSig (n * 4 ^ (52 - sqrtExp n)) : ℚ) / 2 ^ (52 - sqrtExp n)

/-- `algebra.sqrt` on a scalar argument (here a nonnegative integer
below `2 ^ 53`): `result = math.sqrt(x)`, then
`round(result) if round(result) == result else result`, i.e. the
integral float results are converted to `int`. -/
def sqrtScalar (n : ℕ) : PyNum :=
  if (sqrtFloat n).den = 1 then .int (sqrtFloat n).num else .float (sqrtFloat n)

/-- The source's `Window(w, r)` value before normalization: either
component may be absent. -/
structure Window : Type where
  w : Option ℤ
  r : Option ℤ
deriving DecidableEq, Repr

/-- The `window` argument of `normalize_window`: `None`, a plain
integer, or a `Window`. -/
inductive WindowSpec : Type where
  | noSpec
  | int (n : ℤ)
  | win (w : Window)
deriving DecidableEq, Repr

/-- Modelled from the spec: `gs_quant.timeseries.helper.normalize_window`
is not among the source files (only its test suite
`test/timeseries/test_helper.py` is); reconstructed from spec section
4.2 together with those tests.  Where the two disagree — a `Window` with
a size but no ramp — the in-repository test
`test_normalize_window_handles_window_with_no_ramp` is followed: the
ramp defaults to the size (`Window(2, None)` normalizes to `(2, 2)`),
not to 0.  The series enters only through its length.  A `Window` with
neither component is not exercised by the spec or the tests; it is
modelled like an absent window. -/
def normalize_window (len : ℕ) (window : WindowSpec) (default_window : Option ℤ) :
    Except MqError (ℤ × ℤ) :=
  let dw : ℤ := default_window.getD (len : ℤ)
  let wr : ℤ × ℤ :=
    match window with
    | .noSpec => (dw, 0)
    | .int n => (n, n)
    | .win ⟨.some w, .some r⟩ => (w, r)
    | .win ⟨.some w, .none⟩ => (w, w)
    | .win ⟨.none, .some r⟩ => (dw, r)
    | .win ⟨.none, .none⟩ => (dw, 0)
  if wr.1 ≤ 0 then .error .valueError
  else if (len : ℤ) < wr.2 then .error .valueError
  else .ok wr

instance {ε α : Type} [DecidableEq ε] [DecidableEq α] : DecidableEq (Except ε α) :=
  fun a b =>
    match a, b with
    | .ok x, .ok y =>
        if h : x = y then isTrue (by rw [h]) else isFalse (fun hc => h (Except.ok.inj hc))
    | .error x, .error y =>
        if h : x = y then isTrue (by rw [h]) else isFalse (fun hc => h (Except.error.inj hc))
    | .ok _, .error _ => isFalse (fun hc => Except.noConfusion hc)
    | .error _, .ok _ => isFalse (fun hc => Except.noConfusion hc)

/-- Modelled from the spec: `gs_quant.timeseries.helper.apply_ramp` is
not among the source files (only its test suite
`test/timeseries/test_helper.py` is); reconstructed from spec section
4.2 together with those tests.  Raises `MqValueError` when the size is
not positive or the ramp is negative or exceeds the series length;
returns an empty series when the size exceeds the series length;
otherwise drops the first `ramp` entries. -/
def apply_ramp (x : Series) (w : ℤ × ℤ) : Except MqError Series :=
  if w.1 ≤ 0 then .error .valueError
  else if w.2 < 0 ∨ (x.length : ℤ) < w.2 then .error .valueError
  else if (x.length : ℤ) < w.1 then .ok ([] : Series)
  else .ok (x.drop w.2.toNat)

theorem mem_mergeUnion (a b : List ℕ) (d : ℕ) :
    d ∈ mergeUnion a b ↔ d ∈ a ∨ d ∈ b := by
  induction a, b using mergeUnion.induct with
  | case1 ys => simp [mergeUnion]
  | case2 x xs => simp [mergeUnion]
  | case3 x xs y ys hlt ih =>
      simp only [mergeUnion, if_pos hlt, List.mem_cons, ih]
      tauto
  | case4 x xs y ys hlt hgt ih =>
      simp only [mergeUnion, if_neg hlt, if_pos hgt, List.mem_cons, ih]
      tauto
  | case5 x xs y ys hlt hgt ih =>
      have hxy : x = y := le_antisymm (not_lt.mp hgt) (not_lt.mp hlt)
      subst hxy
      simp only [mergeUnion, if_neg hlt, if_neg hgt, List.mem_cons, ih]
      tauto

theorem sorted_mergeUnion (a b : List ℕ) (ha : a.Pairwise (· < ·))
    (hb : b.Pairwise (· < ·)) : (mergeUnion a b).Pairwise (· < ·) := by
  induction a, b using mergeUnion.induct with
  | case1 ys => simpa [mergeUnion] using hb
  | case2 x xs => simpa [mergeUnion] using ha
  | case3 x xs y ys hlt ih =>
      rw [List.pairwise_cons] at ha
      simp only [mergeUnion, if_pos hlt]
      refine List.pairwise_cons.mpr ⟨?_, ih ha.2 hb⟩
      intro w hw
      rcases (mem_mergeUnion _ _ _).mp hw with h | h
      · exact ha.1 w h
      · rcases List.mem_cons.mp h with rfl | h
        · exact hlt
        · exact hlt.trans ((List.pairwise_cons.mp hb).1 w h)
  | case4 x xs y ys hlt hgt ih =>
      rw [List.pairwise_cons] at hb
      simp only [mergeUnion, if_neg hlt, if_pos hgt]
      refine List.pairwise_cons.mpr ⟨?_, ih ha hb.2⟩
      intro w hw
      rcases (mem_mergeUnion _ _ _).mp hw with h | h
      · rcases List.mem_cons.mp h with rfl | h
        · exact hgt
        · exact hgt.trans ((List.pairwise_cons.mp ha).1 w h)
      · exact hb.1 w h
  | case5 x xs y ys hlt hgt ih =>
      have hxy : x = y := le_antisymm (not_lt.mp hgt) (not_lt.mp hlt)
      subst hxy
      rw [List.pairwise_cons] at ha hb
      simp only [mergeUnion, if_neg hlt, if_neg hgt]
      refine List.pairwise_cons.mpr ⟨?_, ih ha.2 hb.2⟩
      intro w hw
      rcases (mem_mergeUnion _ _ _).mp hw with h | h
      · exact ha.1 w h
      · exact hb.1 w h

theorem mergeUnion_self (l : List ℕ) : mergeUnion l l = l := by
  induction l with
  | nil => simp [mergeUnion]
  | cons x xs ih => simp [mergeUnion, ih]

theorem mergeInter_sublist (a b : List ℕ) : (mergeInter a b).Sublist a := by
  induction a, b using mergeInter.induct with
  | case1 ys => simp [mergeInter]
  | case2 x xs => simp [mergeInter]
  | case3 x xs y ys hlt ih =>
      simpa only [mergeInter, if_pos hlt] using ih.trans (List.sublist_cons_self x xs)
  | case4 x xs y ys hlt hgt ih =>
      simpa only [mergeInter, if_neg hlt, if_pos hgt] using ih
  | case5 x xs y ys hlt hgt ih =>
      simpa only [mergeInter, if_neg hlt, if_neg hgt] using ih.cons₂ x

theorem sorted_mergeInter (a b : List ℕ) (ha : a.Pairwise (· < ·)) :
    (mergeInter a b).Pairwise (· < ·) :=
  List.Pairwise.sublist (mergeInter_sublist a b) ha

theorem mem_mergeInter (a b : List ℕ) (ha : a.Pairwise (· < ·))
    (hb : b.Pairwise (· < ·)) (d : ℕ) :
    d ∈ mergeInter a b ↔ d ∈ a ∧ d ∈ b := by
  induction a, b using mergeInter.induct with
  | case1 ys => simp [mergeInter]
  | case2 x xs => simp [mergeInter]
  | case3 x xs y ys hlt ih =>
      rw [List.pairwise_cons] at ha
      simp only [mergeInter, if_pos hlt, ih ha.2 hb, List.mem_cons]
      constructor
      · rintro ⟨h1, h2⟩; exact ⟨Or.inr h1, h2⟩
      · rintro ⟨h1 | h1, h2⟩
        · subst h1
          rcases h2 with rfl | h2
          · exact absurd hlt (lt_irrefl _)
          · exact absurd ((List.pairwise_cons.mp hb).1 d h2) (by omega)
        · exact ⟨h1, h2⟩
  | case4 x xs y ys hlt hgt ih =>
      rw [List.pairwise_cons] at hb
      simp only [mergeInter, if_neg hlt, if_pos hgt, ih ha hb.2, List.mem_cons]
      constructor
      · rintro ⟨h1, h2⟩; exact ⟨h1, Or.inr h2⟩
      · rintro ⟨h1, h2 | h2⟩
        · subst h2
          rcases h1 with rfl | h1
          · exact absurd hgt (lt_irrefl _)
          · exact absurd ((List.pairwise_cons.mp ha).1 d h1) (by omega)
        · exact ⟨h1, h2⟩
  | case5 x xs y ys hlt hgt ih =>
      have hxy : x = y := le_antisymm (not_lt.mp hgt) (not_lt.mp hlt)
      subst hxy
      rw [List.pairwise_cons] at ha hb
      simp only [mergeInter, List.mem_cons, if_neg hlt, if_neg hgt, ih ha.2 hb.2]
      constructor
      · rintro (rfl | ⟨h1, h2⟩)
        · exact ⟨Or.inl rfl, Or.inl rfl⟩
        · exact ⟨Or.inr h1, Or.inr h2⟩
      · rintro ⟨rfl | h1, h2⟩
        · exact Or.inl rfl
        · rcases h2 with rfl | h2
          · exact absurd (ha.1 d h1) (lt_irrefl _)
          · exact Or.inr ⟨h1, h2⟩

theorem sorted_unique (l₁ l₂ : List ℕ) (h₁ : l₁.Pairwise (· < ·))
    (h₂ : l₂.Pairwise (· < ·)) (h : ∀ d, d ∈ l₁ ↔ d ∈ l₂) : l₁ = l₂ := by
  induction l₁ generalizing l₂ with
  | nil =>
      cases l₂ with
      | nil => rfl
      | cons y ys => exact absurd ((h y).mpr (List.mem_cons_self y ys)) (List.not_mem_nil y)
  | cons x xs ih =>
      cases l₂ with
      | nil => exact absurd ((h x).mp (List.mem_cons_self x xs)) (List.not_mem_nil x)
      | cons y ys =>
          rw [List.pairwise_cons] at h₁ h₂
          have hxy : x = y := by
            rcases List.mem_cons.mp ((h x).mp (List.mem_cons_self x xs)) with h' | h'
            · exact h'
            · rcases List.mem_cons.mp ((h y).mpr (List.mem_cons_self y ys)) with h'' | h''
              · exact h''.symm
              · exact absurd (h₂.1 x h') (by have := h₁.1 y h''; omega)
          subst hxy
          have htail : ∀ d, d ∈ xs ↔ d ∈ ys := by
            intro d
            constructor
            · intro hd
              rcases List.mem_cons.mp ((h d).mp (List.mem_cons.mpr (Or.inr hd))) with rfl | h'
              · exact absurd (h₁.1 d hd) (lt_irrefl _)
              · exact h'
            · intro hd
              rcases List.mem_cons.mp ((h d).mpr (List.mem_cons.mpr (Or.inr hd))) with rfl | h'
              · exact absurd (h₂.1 d hd) (lt_irrefl _)
              · exact h'
          rw [ih ys h₁.2 h₂.2 htail]

theorem dates_map_tab (ds : List ℕ) (f : ℕ → Val) :
    Series.dates (ds.map (fun d => (d, f d))) = ds := by
  induction ds with
  | nil => rfl
  | cons d t ih =>
      show Series.dates ((d, f d) :: t.map (fun d => (d, f d))) = d :: t
      unfold Series.dates at ih ⊢
      rw [List.map_cons, ih]

theorem valueAt?_cons_ne (p : ℕ × Val) (t : Series) (d : ℕ) (h : p.1 ≠ d) :
    valueAt? (p :: t) d = valueAt? t d := by
  unfold valueAt?
  rw [List.find?_cons_of_neg]
  simp [h]

theorem valueAt?_cons_self (p : ℕ × Val) (t : Series) :
    valueAt? (p :: t) p.1 = some p.2 := by
  unfold valueAt?
  rw [List.find?_cons_of_pos]
  · rfl
  · simp

theorem valueAt?_map_tab (ds : List ℕ) (f : ℕ → Val) (d : ℕ) (hd : d ∈ ds) :
    valueAt? (ds.map (fun e => (e, f e))) d = some (f d) := by
  induction ds with
  | nil => cases hd
  | cons e t ih =>
      rw [List.map_cons]
      by_cases he : e = d
      · subst he
        exact valueAt?_cons_self (e, f e) _
      · rcases List.mem_cons.mp hd with rfl | hd'
        · exact absurd rfl he
        · rw [valueAt?_cons_ne (e, f e) _ d he]
          exact ih hd'

theorem valAt_map_tab (ds : List ℕ) (f : ℕ → Val) (d : ℕ) (hd : d ∈ ds) :
    valAt (ds.map (fun e => (e, f e))) d = f d := by
  simp [valAt, valueAt?_map_tab ds f d hd]

theorem valueAt?_isSome_of_mem (s : Series) (d : ℕ) (hd : d ∈ Series.dates s) :
    ∃ p, p ∈ s ∧ p.1 = d ∧ valueAt? s d = some p.2 := by
  induction s with
  | nil => cases hd
  | cons p t ih =>
      by_cases he : p.1 = d
      · exact ⟨p, List.mem_cons_self p t, he, by rw [← he]; exact valueAt?_cons_self p t⟩
      · rcases List.mem_cons.mp hd with h' | h'
        · exact absurd h'.symm he
        · obtain ⟨p', hp', he', hv'⟩ := ih h'
          exact ⟨p', List.mem_cons.mpr (Or.inr hp'), he',
            by rw [valueAt?_cons_ne p t d he]; exact hv'⟩

theorem valueAt?_eq_none_of_not_mem (s : Series) (d : ℕ) (hd : d ∉ Series.dates s) :
    valueAt? s d = none := by
  induction s with
  | nil => rfl
  | cons p t ih =>
      have h1 : p.1 ≠ d := fun h => hd (by simp [Series.dates, h])
      rw [valueAt?_cons_ne p t d h1]
      exact ih (fun h => hd (by simp [Series.dates] at h ⊢; exact Or.inr h))

theorem stepVal_of_not_mem (s : Series) (d : ℕ) (hd : d ∉ Series.dates s) :
    stepVal s d = (lastPriorVal s d).getD Val.nan := by
  unfold stepVal lastPriorVal
  have : s.filter (fun p => p.1 ≤ d) = s.filter (fun p => p.1 < d) := by
    apply List.filter_congr
    intro p hp
    have h1 : p.1 ≠ d := fun h => hd (by simp [Series.dates]; exact ⟨p.2, h ▸ hp⟩)
    simp only [decide_eq_decide, Nat.lt_iff_le_and_ne]
    exact ⟨fun h => ⟨h, h1⟩, fun h => h.1⟩
  rw [this]

theorem sortedDates_cons (q : ℕ × Val) (t : Series) (h : SortedDates (q :: t)) :
    SortedDates t ∧ ∀ r ∈ t, q.1 < r.1 := by
  unfold SortedDates Series.dates at h ⊢
  rw [List.map_cons, List.pairwise_cons] at h
  exact ⟨h.2, fun r hr => h.1 r.1 (List.mem_map.mpr ⟨r, hr, rfl⟩)⟩

theorem keys_injective (s : Series) (hs : SortedDates s) (p p' : ℕ × Val)
    (hp : p ∈ s) (hp' : p' ∈ s) (h : p.1 = p'.1) : p = p' := by
  induction s with
  | nil => cases hp
  | cons q t ih =>
      obtain ⟨hst, hlt⟩ := sortedDates_cons q t hs
      rcases List.mem_cons.mp hp with h1 | h1 <;> rcases List.mem_cons.mp hp' with h2 | h2
      · rw [h1, h2]
      · subst h1
        exact absurd (hlt p' h2) (by omega)
      · subst h2
        exact absurd (hlt p h1) (by omega)
      · exact ih hst h1 h2

theorem filter_keys (s : Series) (hs : SortedDates s) (f : ℕ → Bool) :
    s.filter (fun p => f p.1) =
      ((Series.dates s).filter f).map (fun d => (d, valAt s d)) := by
  induction s with
  | nil => rfl
  | cons q t ih =>
      obtain ⟨hst, hlt⟩ := sortedDates_cons q t hs
      have hdates : Series.dates (q :: t) = q.1 :: Series.dates t := by
        simp [Series.dates]
      have htail : ((Series.dates t).filter f).map (fun d => (d, valAt t d)) =
          ((Series.dates t).filter f).map (fun d => (d, valAt (q :: t) d)) := by
        apply List.map_congr_left
        intro d hd
        have hdt : d ∈ Series.dates t := List.mem_of_mem_filter hd
        obtain ⟨r, hr, hr1, _⟩ := valueAt?_isSome_of_mem t d hdt
        have hne : q.1 ≠ d := by have := hlt r hr; omega
        simp [valAt, valueAt?_cons_ne q t d hne]
      rw [hdates, List.filter_cons, List.filter_cons]
      by_cases hf : f q.1 = true
      · rw [if_pos hf, if_pos hf, List.map_cons]
        have hq : valAt (q :: t) q.1 = q.2 := by
          simp [valAt, valueAt?_cons_self q t]
        rw [hq, ih hst, htail, Prod.mk.eta]
      · rw [if_neg hf, if_neg hf, ih hst, htail]

/-- C1: for every pair of time series `x` and `y` (satisfying the data
model's strictly-increasing-dates invariant), aligning with method STEP
(the method the algebra operations default to) produces two series with
a common index, equal to the sorted union of the two date sets, and a
date present in only one input receives, in the other series, that
series' last-known value from a prior date (carried forward), or NaN
(the missing-marker) when no prior value exists. -/
theorem claim_C1 (x y : Series) (hx : SortedDates x) (hy : SortedDates y) :
    Series.dates (align x y .STEP).1 = Series.dates (align x y .STEP).2
    ∧ (Series.dates (align x y .STEP).1).Pairwise (· < ·)
    ∧ (∀ d, d ∈ Series.dates (align x y .STEP).1 ↔
        d ∈ Series.dates x ∨ d ∈ Series.dates y)
    ∧ (∀ d, d ∈ Series.dates y → d ∉ Series.dates x →
        valueAt? (align x y .STEP).1 d = some ((lastPriorVal x d).getD Val.nan))
    ∧ (∀ d, d ∈ Series.dates x → d ∉ Series.dates y →
        valueAt? (align x y .STEP).2 d = some ((lastPriorVal y d).getD Val.nan)) := by
  have h1 : (align x y .STEP).1 =
      (mergeUnion (Series.dates x) (Series.dates y)).map (fun d => (d, stepVal x d)) := rfl
  have h2 : (align x y .STEP).2 =
      (mergeUnion (Series.dates x) (Series.dates y)).map (fun d => (d, stepVal y d)) := rfl
  refine ⟨?_, ?_, ?_, ?_, ?_⟩
  · rw [h1, h2, dates_map_tab, dates_map_tab]
  · rw [h1, dates_map_tab]
    exact sorted_mergeUnion _ _ hx hy
  · intro d
    rw [h1, dates_map_tab]
    exact mem_mergeUnion _ _ d
  · intro d hdy hdx
    have hd : d ∈ mergeUnion (Series.dates x) (Series.dates y) :=
      (mem_mergeUnion _ _ d).mpr (Or.inr hdy)
    rw [h1, valueAt?_map_tab _ _ d hd, stepVal_of_not_mem x d hdx]
  · intro d hdx hdy
    have hd : d ∈ mergeUnion (Series.dates x) (Series.dates y) :=
      (mem_mergeUnion _ _ d).mpr (Or.inl hdx)
    rw [h2, valueAt?_map_tab _ _ d hd, stepVal_of_not_mem y d hdy]

/-- Witness for C1 at a concrete pair of sorted series: the date 2
belongs only to `y`, so the aligned `x` carries its day-1 value forward
to it; the date 1 belongs only to `x`, and `y` has no prior value there,
so the aligned `y` holds NaN. -/
theorem claim_C1_witness :
    SortedDates [(1, Val.num 10), (3, Val.num 30)]
    ∧ SortedDates [(2, Val.num 5), (3, Val.num 6), (4, Val.num 7)]
    ∧ valueAt? (align [(1, Val.num 10), (3, Val.num 30)]
        [(2, Val.num 5), (3, Val.num 6), (4, Val.num 7)] .STEP).1 2 =
        some ((lastPriorVal [(1, Val.num 10), (3, Val.num 30)] 2).getD Val.nan)
    ∧ valueAt? (align [(1, Val.num 10), (3, Val.num 30)]
        [(2, Val.num 5), (3, Val.num 6), (4, Val.num 7)] .STEP).2 1 =
        some ((lastPriorVal [(2, Val.num 5), (3, Val.num 6), (4, Val.num 7)] 1).getD Val.nan) :=
  ⟨by decide, by decide,
    (claim_C1 [(1, Val.num 10), (3, Val.num 30)]
      [(2, Val.num 5), (3, Val.num 6), (4, Val.num 7)]
      (by decide) (by decide)).2.2.2.1 2 (by decide) (by decide),
    (claim_C1 [(1, Val.num 10), (3, Val.num 30)]
      [(2, Val.num 5), (3, Val.num 6), (4, Val.num 7)]
      (by decide) (by decide)).2.2.2.2 1 (by decide) (by decide)⟩

theorem pdOp_tab (f : Val → Val → Val) (ds : List ℕ) (g1 g2 : ℕ → Val) :
    pdOp f (ds.map (fun d => (d, g1 d))) (ds.map (fun d => (d, g2 d))) =
      ds.map (fun d => (d, f (g1 d) (g2 d))) := by
  unfold pdOp
  rw [dates_map_tab, dates_map_tab, mergeUnion_self]
  apply List.map_congr_left
  intro d hd
  rw [valAt_map_tab _ _ _ hd, valAt_map_tab _ _ _ hd]

theorem mergeInter_inter_right (A B : List ℕ) (hA : A.Pairwise (· < ·))
    (hB : B.Pairwise (· < ·)) : mergeInter (mergeInter A B) B = mergeInter A B := by
  apply sorted_unique
  · exact sorted_mergeInter _ _ (sorted_mergeInter _ _ hA)
  · exact sorted_mergeInter _ _ hA
  · intro d
    rw [mem_mergeInter _ _ (sorted_mergeInter _ _ hA) hB, mem_mergeInter _ _ hA hB]
    tauto

theorem valAt_num_of_mem (s : Series) (d : ℕ) (hd : d ∈ Series.dates s)
    (hn : ∀ p ∈ s, Val.isNum p.2 = true) : ∃ q : ℚ, valAt s d = Val.num q := by
  obtain ⟨p, hp, hp1, hv⟩ := valueAt?_isSome_of_mem s d hd
  have h := hn p hp
  cases hval : p.2 with
  | num q => exact ⟨q, by simp [valAt, hv, hval]⟩
  | nan => rw [hval] at h; cases h
  | inf => rw [hval] at h; cases h
  | ninf => rw [hval] at h; cases h

/-- C2: for every pair of series `a` and `b` (satisfying the data
model's invariant, with finite numeric values so that the arithmetic is
exact), `add(a, b)` with method INTERSECT followed by
`subtract(result, b)` with method INTERSECT yields `a` restricted to the
intersection of the two date indices. -/
theorem claim_C2 (a b : Series) (ha : SortedDates a) (hb : SortedDates b)
    (hna : ∀ p ∈ a, Val.isNum p.2 = true) (hnb : ∀ p ∈ b, Val.isNum p.2 = true) :
    subtract (add (.ser a) (.ser b) .INTERSECT) (.ser b) .INTERSECT
      = .ser (a.filter (fun p => decide (p.1 ∈ Series.dates b))) := by
  have ha' : (Series.dates a).Pairwise (· < ·) := ha
  have hb' : (Series.dates b).Pairwise (· < ·) := hb
  have hR : pdOp Val.add (align a b .INTERSECT).1 (align a b .INTERSECT).2 =
      (mergeInter (Series.dates a) (Series.dates b)).map
        (fun d => (d, Val.add (valAt a d) (valAt b d))) := by
    have h1 : (align a b .INTERSECT).1 =
        (mergeInter (Series.dates a) (Series.dates b)).map (fun d => (d, valAt a d)) := rfl
    have h2 : (align a b .INTERSECT).2 =
        (mergeInter (Series.dates a) (Series.dates b)).map (fun d => (d, valAt b d)) := rfl
    rw [h1, h2, pdOp_tab]
  have hstep : subtract (add (.ser a) (.ser b) .INTERSECT) (.ser b) .INTERSECT =
      .ser (pdOp Val.sub
        (align (pdOp Val.add (align a b .INTERSECT).1 (align a b .INTERSECT).2) b
          .INTERSECT).1
        (align (pdOp Val.add (align a b .INTERSECT).1 (align a b .INTERSECT).2) b
          .INTERSECT).2) := rfl
  rw [hstep, hR]
  have hRd : Series.dates ((mergeInter (Series.dates a) (Series.dates b)).map
      (fun d => (d, Val.add (valAt a d) (valAt b d)))) =
      mergeInter (Series.dates a) (Series.dates b) := dates_map_tab _ _
  have hds2 : mergeInter (Series.dates ((mergeInter (Series.dates a) (Series.dates b)).map
      (fun d => (d, Val.add (valAt a d) (valAt b d))))) (Series.dates b) =
      mergeInter (Series.dates a) (Series.dates b) := by
    rw [hRd]
    exact mergeInter_inter_right _ _ ha' hb'
  have h3 : (align ((mergeInter (Series.dates a) (Series.dates b)).map
      (fun d => (d, Val.add (valAt a d) (valAt b d)))) b .INTERSECT) =
      ((mergeInter (Series.dates a) (Series.dates b)).map
        (fun d => (d, valAt ((mergeInter (Series.dates a) (Series.dates b)).map
          (fun e => (e, Val.add (valAt a e) (valAt b e)))) d)),
       (mergeInter (Series.dates a) (Series.dates b)).map (fun d => (d, valAt b d))) := by
    show ((mergeInter (Series.dates ((mergeInter (Series.dates a) (Series.dates b)).map
        (fun d => (d, Val.add (valAt a d) (valAt b d))))) (Series.dates b)).map _,
      (mergeInter (Series.dates ((mergeInter (Series.dates a) (Series.dates b)).map
        (fun d => (d, Val.add (valAt a d) (valAt b d))))) (Series.dates b)).map _) = _
    rw [hds2]
  rw [h3, pdOp_tab]
  have hmain : (mergeInter (Series.dates a) (Series.dates b)).map
      (fun d => (d, Val.sub (valAt ((mergeInter (Series.dates a) (Series.dates b)).map
        (fun e => (e, Val.add (valAt a e) (valAt b e)))) d) (valAt b d))) =
      (mergeInter (Series.dates a) (Series.dates b)).map (fun d => (d, valAt a d)) := by
    apply List.map_congr_left
    intro d hd
    have hd' := (mem_mergeInter _ _ ha' hb' d).mp hd
    obtain ⟨qa, hqa⟩ := valAt_num_of_mem a d hd'.1 hna
    obtain ⟨qb, hqb⟩ := valAt_num_of_mem b d hd'.2 hnb
    rw [valAt_map_tab _ _ _ hd, hqa, hqb]
    show (d, Val.sub (Val.num (qa + qb)) (Val.num qb)) = (d, Val.num qa)
    have : qa + qb - qb = qa := by ring
    simp [Val.sub, this]
  rw [hmain]
  have htarget : a.filter (fun p => decide (p.1 ∈ Series.dates b)) =
      ((Series.dates a).filter (fun d => decide (d ∈ Series.dates b))).map
        (fun d => (d, valAt a d)) :=
    filter_keys a ha (fun d => decide (d ∈ Series.dates b))
  have hAf : (Series.dates a).filter (fun d => decide (d ∈ Series.dates b)) =
      mergeInter (Series.dates a) (Series.dates b) := by
    apply sorted_unique
    · exact List.Pairwise.sublist (List.filter_sublist _) ha'
    · exact sorted_mergeInter _ _ ha'
    · intro d
      rw [List.mem_filter, mem_mergeInter _ _ ha' hb']
      simp
  rw [htarget, hAf]

/-- Witness for C2 at a concrete pair of sorted numeric series: the
round trip returns `a` restricted to the common date 2. -/
theorem claim_C2_witness :
    SortedDates [(1, Val.num 1), (2, Val.num 2), (3, Val.num 3)]
    ∧ SortedDates [(2, Val.num 5), (4, Val.num 6)]
    ∧ (∀ p ∈ ([(1, Val.num 1), (2, Val.num 2), (3, Val.num 3)] : Series),
        Val.isNum p.2 = true)
    ∧ (∀ p ∈ ([(2, Val.num 5), (4, Val.num 6)] : Series), Val.isNum p.2 = true)
    ∧ subtract (add (.ser [(1, Val.num 1), (2, Val.num 2), (3, Val.num 3)])
        (.ser [(2, Val.num 5), (4, Val.num 6)]) .INTERSECT)
        (.ser [(2, Val.num 5), (4, Val.num 6)]) .INTERSECT
        = .ser [(2, Val.num 2)] := by
  refine ⟨by decide, by decide, by decide, by decide, ?_⟩
  rw [claim_C2 [(1, Val.num 1), (2, Val.num 2), (3, Val.num 3)]
    [(2, Val.num 5), (4, Val.num 6)] (by decide) (by decide) (by decide) (by decide)]
  decide

/-- Counterexample to C3 as stated: on the scalar/scalar path the
source executes Python's `x / y`, so `divide(1, 0)` raises
`ZeroDivisionError` rather than following floating-point semantics
(the method argument defaults to STEP and is irrelevant on this path). -/
theorem claim_C3_cx :
    divide (.scalar 1) (.scalar 0) .STEP = .error .zeroDivisionError := by
  simp [divide]

/-- C3 (amended): whenever at least one operand is a series, `divide`
never raises — the division is performed by `pandas.Series.divide`, and
a finite value divided by zero yields infinity or NaN; but on the
scalar/scalar path a zero divisor raises `ZeroDivisionError` (Python's
`/` on numbers), e.g. `divide(1, 0)`. -/
theorem claim_C3 :
    (∀ sx sy : Series, ∀ m, ∃ r, divide (.ser sx) (.ser sy) m = .ok r)
    ∧ (∀ q : ℚ, ∀ s : Series, ∀ m, ∃ r, divide (.scalar q) (.ser s) m = .ok r)
    ∧ (∀ s : Series, ∀ q : ℚ, ∀ m, ∃ r, divide (.ser s) (.scalar q) m = .ok r)
    ∧ (∀ a : ℚ, Val.div (Val.num a) (Val.num 0) = Val.inf ∨
        Val.div (Val.num a) (Val.num 0) = Val.ninf ∨
        Val.div (Val.num a) (Val.num 0) = Val.nan)
    ∧ (∀ q : ℚ, ∀ m, divide (.scalar q) (.scalar 0) m = .error .zeroDivisionError) := by
  refine ⟨fun sx sy m => ⟨_, rfl⟩, fun q s m => ⟨_, rfl⟩, fun s q m => ⟨_, rfl⟩, ?_, ?_⟩
  · intro a
    by_cases h1 : 0 < a
    · left; simp [Val.div, h1]
    · by_cases h2 : a < 0
      · right; left; simp [Val.div, h1, h2]
      · right; right; simp [Val.div, h1, h2]
  · intro q m
    simp [divide]

theorem monotonicIncr_of_sorted (l : List ℕ) (h : l.Pairwise (· < ·)) :
    monotonicIncr l = true := by
  induction l with
  | nil => rfl
  | cons a t ih =>
      cases t with
      | nil => rfl
      | cons b u =>
          rw [List.pairwise_cons] at h
          have hab : a ≤ b := le_of_lt (h.1 b (List.mem_cons_self b u))
          simp [monotonicIncr, hab, ih h.2]

/-- Counterexample to C4 as stated: the source's check is pandas
`is_monotonic_increasing`, which is non-strict, so a series whose date
index repeats a date — not strictly increasing — passes the assertion
and both clamps succeed instead of failing with an ordering error. -/
theorem claim_C4_cx :
    ¬ SortedDates [(0, Val.num 5), (0, Val.num 1)]
    ∧ floor [(0, Val.num 5), (0, Val.num 1)] 3 = .ok [(0, Val.num 5), (0, Val.num 3)]
    ∧ ceil [(0, Val.num 5), (0, Val.num 1)] 3 = .ok [(0, Val.num 3), (0, Val.num 1)] := by
  refine ⟨by decide, by decide, by decide⟩

/-- C4 (amended): `floor(x, v)` and `ceil(x, v)` fail with the ordering
(assertion) error exactly when the date index is not non-strictly
monotonically increasing — in particular every strictly increasing index
passes — and on success they return the series with each value clamped
pointwise to `max(X_t, v)` resp. `min(X_t, v)`, dates unchanged. -/
theorem claim_C4 (x : Series) (v : ℚ) :
    (SortedDates x → monotonicIncr (Series.dates x) = true)
    ∧ (monotonicIncr (Series.dates x) = false →
        floor x v = .error .assertionError ∧ ceil x v = .error .assertionError)
    ∧ (monotonicIncr (Series.dates x) = true →
        ∃ rf rc, floor x v = .ok rf ∧ ceil x v = .ok rc
          ∧ Series.dates rf = Series.dates x ∧ Series.dates rc = Series.dates x
          ∧ rf.length = x.length ∧ rc.length = x.length
          ∧ (∀ i, (hi : i < rf.length) → (hx : i < x.length) →
              (rf.get ⟨i, hi⟩).2 = Val.maxq (x.get ⟨i, hx⟩).2 v)
          ∧ (∀ i, (hi : i < rc.length) → (hx : i < x.length) →
              (rc.get ⟨i, hi⟩).2 = Val.minq (x.get ⟨i, hx⟩).2 v)) := by
  refine ⟨fun hs => monotonicIncr_of_sorted _ hs, fun hmono => ?_, fun hmono => ?_⟩
  · constructor
    · unfold floor
      rw [hmono]
      rfl
    · unfold ceil
      rw [hmono]
      rfl
  · refine ⟨x.map (fun p => (p.1, Val.maxq p.2 v)), x.map (fun p => (p.1, Val.minq p.2 v)),
      ?_, ?_, ?_, ?_, ?_, ?_, ?_, ?_⟩
    · unfold floor
      rw [hmono]
      rfl
    · unfold ceil
      rw [hmono]
      rfl
    · unfold Series.dates
      rw [List.map_map]
      exact List.map_congr_left (fun p _ => rfl)
    · unfold Series.dates
      rw [List.map_map]
      exact List.map_congr_left (fun p _ => rfl)
    · exact List.length_map x _
    · exact List.length_map x _
    · intro i hi hx
      simp [List.get_eq_getElem, List.getElem_map]
    · intro i hi hx
      simp [List.get_eq_getElem, List.getElem_map]

/-- Witness for C4 at concrete inputs: a strictly decreasing index fails
both clamps with the assertion error, and a strictly increasing one
passes the monotonicity check. -/
theorem claim_C4_witness :
    (monotonicIncr (Series.dates [(2, Val.num 1), (1, Val.num 2)]) = false
      ∧ floor [(2, Val.num 1), (1, Val.num 2)] 3 = .error .assertionError)
    ∧ (SortedDates [(1, Val.num 1), (2, Val.num 7)]
      ∧ monotonicIncr (Series.dates [(1, Val.num 1), (2, Val.num 7)]) = true) :=
  ⟨⟨by decide, ((claim_C4 [(2, Val.num 1), (1, Val.num 2)] 3).2.1 (by decide)).1⟩,
   ⟨by decide, (claim_C4 [(1, Val.num 1), (2, Val.num 7)] 3).1 (by decide)⟩⟩

theorem sqrtExp_def (n : ℕ) : sqrtExp n = Nat.log 2 n / 2 := rfl

theorem roundSqrtSig_sq (m : ℕ) : roundSqrtSig (m * m) = m := by
  have hs : Nat.sqrt (m * m) = m := Nat.sqrt_eq m
  have hno : ¬ (2 * Nat.sqrt (m * m) + 1) ^ 2 ≤ 4 * (m * m) := by
    rw [hs]
    have h : (2 * m + 1) ^ 2 = 4 * (m * m) + 4 * m + 1 := by ring
    omega
  unfold roundSqrtSig
  rw [if_neg hno, hs]

theorem sqrtFloat_sq (k : ℕ) : sqrtFloat (k * k) = (k : ℚ) := by
  by_cases h0 : k = 0
  · subst h0
    rfl
  · have hne : k * k ≠ 0 := Nat.mul_ne_zero h0 h0
    unfold sqrtFloat
    rw [if_neg hne]
    have h4 : (k * k) * 4 ^ (52 - sqrtExp (k * k)) =
        (k * 2 ^ (52 - sqrtExp (k * k))) * (k * 2 ^ (52 - sqrtExp (k * k))) := by
      have : (4 : ℕ) ^ (52 - sqrtExp (k * k)) =
          2 ^ (52 - sqrtExp (k * k)) * 2 ^ (52 - sqrtExp (k * k)) := by
        rw [← pow_add, ← two_mul, pow_mul]
        norm_num
      rw [this]
      ring
    rw [h4, roundSqrtSig_sq]
    push_cast
    rw [mul_div_assoc, div_self (by positivity), mul_one]

/-- Counterexample to C5 as stated: `math.sqrt` is the correctly rounded
binary64 square root, and for `x = 2 ^ 52 + 1` — an exactly representable
integer that is not a perfect square — the rounded result is exactly the
integral float `2 ^ 26`, so the source's `round(result) == result` test
succeeds and `sqrt` returns the integer `67108864` although the
mathematical square root of `x` is irrational. -/
theorem claim_C5_cx :
    sqrtScalar (2 ^ 52 + 1) = .int 67108864
    ∧ ¬ ∃ k : ℕ, k * k = 2 ^ 52 + 1 := by
  constructor
  · have hne : (2 ^ 52 + 1 : ℕ) ≠ 0 := by positivity
    have hlog : Nat.log 2 (2 ^ 52 + 1) = 52 :=
      Nat.log_eq_of_pow_le_of_lt_pow (by norm_num) (by norm_num)
    have hexp : sqrtExp (2 ^ 52 + 1) = 26 := by
      rw [sqrtExp_def, hlog]
    have hN : (2 ^ 52 + 1) * 4 ^ (52 - sqrtExp (2 ^ 52 + 1)) =
        2 ^ 104 + 2 ^ 52 := by
      rw [hexp]
      norm_num
    have hsqrt : Nat.sqrt (2 ^ 104 + 2 ^ 52) = 2 ^ 52 := by
      have h1 : (2 ^ 52 : ℕ) ≤ Nat.sqrt (2 ^ 104 + 2 ^ 52) := by
        rw [Nat.le_sqrt]
        norm_num
      have h2 : Nat.sqrt (2 ^ 104 + 2 ^ 52) < 2 ^ 52 + 1 := by
        rw [Nat.sqrt_lt]
        norm_num
      omega
    have hsig : roundSqrtSig (2 ^ 104 + 2 ^ 52) = 2 ^ 52 := by
      unfold roundSqrtSig
      rw [hsqrt, if_neg (by norm_num)]
    have hsf : sqrtFloat (2 ^ 52 + 1) = ((2 ^ 26 : ℕ) : ℚ) := by
      unfold sqrtFloat
      rw [if_neg hne, hN, hsig, hexp]
      push_cast
      norm_num
    unfold sqrtScalar
    rw [hsf, Rat.den_natCast, if_pos rfl, Rat.num_natCast]
    norm_num
  · exact @Nat.not_exists_sq 67108864 (2 ^ 52 + 1) (by norm_num) (by norm_num)

/-- C5 (amended): on an integer scalar `x` below `2 ^ 53`, if the
mathematical square root of `x` is an integer `k` then `sqrt(x)` returns
`k` as an integer (in particular `sqrt(4) == 2`, an integer, not a
float); the converse direction of the claim fails near `2 ^ 53`, where
the correctly rounded float square root of a non-square can be integral
(see the counterexample at `2 ^ 52 + 1`). -/
theorem claim_C5 (n k : ℕ) (hn : n < 2 ^ 53) (hk : k * k = n) :
    sqrtScalar n = .int (k : ℤ) := by
  subst hk
  unfold sqrtScalar
  rw [sqrtFloat_sq, Rat.den_natCast, if_pos rfl, Rat.num_natCast]

/-- Witness for C5: `sqrt(4)` is the integer 2. -/
theorem claim_C5_witness :
    (4 : ℕ) < 2 ^ 53 ∧ 2 * 2 = 4 ∧ sqrtScalar 4 = .int 2 :=
  ⟨by norm_num, by norm_num, claim_C5 4 2 (by norm_num) (by norm_num)⟩

theorem dropLabels_eq_filter (x : Series) (hx : SortedDates x) (g : ℕ × Val → Bool) :
    x.filter (fun p => !decide (p.1 ∈ (x.filter g).map Prod.fst)) =
      x.filter (fun p => !g p) := by
  apply List.filter_congr
  intro p hp
  have hc : decide (p.1 ∈ (x.filter g).map Prod.fst) = g p := by
    by_cases hg : g p = true
    · rw [hg, decide_eq_true_iff]
      exact List.mem_map.mpr ⟨p, List.mem_filter.mpr ⟨hp, hg⟩, rfl⟩
    · rw [Bool.eq_false_iff.mpr hg, decide_eq_false_iff_not]
      intro hmem
      obtain ⟨p', hp', he⟩ := List.mem_map.mp hmem
      have hpx' := List.mem_filter.mp hp'
      have : p' = p := keys_injective x hx p' p hpx'.1 hp he
      rw [this] at hpx'
      exact hg hpx'.2
  rw [hc]

theorem cmpVal_EQUALS (w : Val) (v : ℚ) :
    cmpVal .EQUALS w v = decide (w = Val.num v) := by
  cases w with
  | num a =>
      by_cases h : a = v
      · simp [cmpVal, h]
      · simp [cmpVal, h]
  | nan => simp [cmpVal]
  | inf => simp [cmpVal]
  | ninf => simp [cmpVal]

/-- C6: for every series (satisfying the data model's invariant) and
value `v`, `filter_(x, EQUALS, v)` removes exactly the entries whose
value equals `v` and keeps every other entry unchanged and in order, and
`filter_(x)` with neither operator nor value removes exactly the
missing-marker (NaN) entries. -/
theorem claim_C6 (x : Series) (v : ℚ) (hx : SortedDates x) :
    filter_ x (.some .EQUALS) (.some v) =
      .ok (x.filter (fun p => decide (p.2 ≠ Val.num v)))
    ∧ filter_ x .none .none = .ok (x.filter (fun p => decide (p.2 ≠ Val.nan))) := by
  constructor
  · show Except.ok (x.filter (fun p =>
        !decide (p.1 ∈ (x.filter (fun p2 => cmpVal .EQUALS p2.2 v)).map Prod.fst))) = _
    rw [dropLabels_eq_filter x hx]
    congr 1
    apply List.filter_congr
    intro p hp
    rw [cmpVal_EQUALS]
    by_cases h : p.2 = Val.num v
    · simp [h]
    · simp [h]
  · show Except.ok (x.filter (fun p => !Val.isNan p.2)) = _
    congr 1
    apply List.filter_congr
    intro p hp
    cases hp2 : p.2
    · simp [Val.isNan]
    · simp [Val.isNan]
    · simp [Val.isNan]
    · simp [Val.isNan]

/-- Witness for C6 at a concrete sorted series holding a zero, a NaN
and a three: filtering EQUALS 0 removes exactly the zero entry, and the
no-argument call removes exactly the NaN entry. -/
theorem claim_C6_witness :
    SortedDates [(0, Val.num 0), (1, Val.nan), (2, Val.num 3)]
    ∧ filter_ [(0, Val.num 0), (1, Val.nan), (2, Val.num 3)] (.some .EQUALS) (.some 0)
        = .ok [(1, Val.nan), (2, Val.num 3)]
    ∧ filter_ [(0, Val.num 0), (1, Val.nan), (2, Val.num 3)] .none .none
        = .ok [(0, Val.num 0), (2, Val.num 3)] := by
  refine ⟨by decide, ?_, ?_⟩
  · rw [(claim_C6 [(0, Val.num 0), (1, Val.nan), (2, Val.num 3)] 0 (by decide)).1]
    decide
  · rw [(claim_C6 [(0, Val.num 0), (1, Val.nan), (2, Val.num 3)] 0 (by decide)).2]
    decide

/-- C7: `filter_` fails (with `MqValueError`, the invalid-argument
error) exactly when an operator is given without a value or a value is
given without an operator — in the model the six comparison operators
are a closed enumeration, so a value with an unrecognized operator is
exactly the value-without-operator case, which the source rejects
through its `Unexpected operator` branch — and the call with neither
operator nor value never fails. -/
theorem claim_C7 (x : Series) (operator : Option FilterOperator) (value : Option ℚ) :
    (∃ e, filter_ x operator value = .error e) ↔
      ((operator ≠ .none ∧ value = .none) ∨ (operator = .none ∧ value ≠ .none)) := by
  cases operator <;> cases value <;> simp [filter_]

/-- C10: for every valid operator/value combination (a comparison
operator with a value, or neither), the series `filter_` returns is a
sublist of the input — every retained entry appears unchanged, in the
same relative order — and filtering a second time with the same
arguments returns it unchanged. -/
theorem claim_C10 (x : Series) :
    (∀ op v y, filter_ x (.some op) (.some v) = .ok y →
        y.Sublist x ∧ filter_ y (.some op) (.some v) = .ok y)
    ∧ (∀ y, filter_ x .none .none = .ok y →
        y.Sublist x ∧ filter_ y .none .none = .ok y) := by
  constructor
  · intro op v y h
    have hy : y = x.filter (fun p =>
        !decide (p.1 ∈ (x.filter (fun p2 => cmpVal op p2.2 v)).map Prod.fst)) :=
      (Except.ok.inj h).symm
    constructor
    · rw [hy]
      exact List.filter_sublist x
    · have hnone : ∀ p ∈ y, cmpVal op p.2 v = false := by
        intro p hp
        rw [hy] at hp
        have hpc := List.mem_filter.mp hp
        by_cases hg : cmpVal op p.2 v = true
        · exfalso
          have hmem : p.1 ∈ (x.filter (fun p2 => cmpVal op p2.2 v)).map Prod.fst :=
            List.mem_map.mpr ⟨p, List.mem_filter.mpr ⟨hpc.1, hg⟩, rfl⟩
          have := hpc.2
          rw [decide_eq_true hmem] at this
          exact absurd this (by decide)
        · exact Bool.eq_false_iff.mpr hg
      have hg : y.filter (fun p2 => cmpVal op p2.2 v) = [] :=
        List.filter_eq_nil_iff.mpr
          (fun p hp => by rw [hnone p hp]; exact Bool.false_ne_true)
      show Except.ok (y.filter (fun p =>
          !decide (p.1 ∈ (y.filter (fun p2 => cmpVal op p2.2 v)).map Prod.fst))) = _
      rw [hg]
      have : y.filter (fun p => !decide (p.1 ∈ ([] : List (ℕ × Val)).map Prod.fst)) = y :=
        List.filter_eq_self.mpr (fun p _ => rfl)
      rw [this]
  · intro y h
    have hy : y = x.filter (fun p => !Val.isNan p.2) := (Except.ok.inj h).symm
    constructor
    · rw [hy]
      exact List.filter_sublist x
    · show Except.ok (y.filter (fun p => !Val.isNan p.2)) = _
      congr 1
      apply List.filter_eq_self.mpr
      intro p hp
      rw [hy] at hp
      exact (List.mem_filter.mp hp).2

/-- Witness for C10 at a concrete series: removing the zero entry keeps
the rest as a sublist, and filtering again changes nothing. -/
theorem claim_C10_witness :
    filter_ [(0, Val.num 0), (1, Val.num 2)] (.some .EQUALS) (.some 0) = .ok [(1, Val.num 2)]
    ∧ List.Sublist [(1, Val.num 2)] [(0, Val.num 0), (1, Val.num 2)]
    ∧ filter_ [(1, Val.num 2)] (.some .EQUALS) (.some 0) = .ok [(1, Val.num 2)] :=
  ⟨by decide,
   ((claim_C10 [(0, Val.num 0), (1, Val.num 2)]).1 .EQUALS 0 [(1, Val.num 2)] (by decide)).1,
   ((claim_C10 [(0, Val.num 0), (1, Val.num 2)]).1 .EQUALS 0 [(1, Val.num 2)] (by decide)).2⟩

/-- Counterexample to C8 as stated: per the repository's own test
suite, a `Window` carrying only a size normalizes with the ramp
defaulting to the size — `Window(2, None)` on a series of length 10
yields `(size 2, ramp 2)` — not to 0 as the claim says. -/
theorem claim_C8_cx :
    normalize_window 10 (.win ⟨.some 2, .none⟩) .none = .ok (2, 2) ∧ (2 : ℤ) ≠ 0 :=
  ⟨by decide, by decide⟩

/-- C8 (amended): `normalize_window(s, None)` yields size = length of
`s` (or the default size when one is given) and ramp = 0; an integer `n`
yields size = ramp = `n`; a `Window` with only a ramp gets size = length
of `s`; a `Window` with only a size gets ramp = size (not 0); and it
fails with `MqValueError` when the resulting size is not positive or the
ramp exceeds the series length. -/
theorem claim_C8 (len : ℕ) (n w r d : ℤ) :
    (0 < (len : ℤ) → normalize_window len .noSpec .none = .ok ((len : ℤ), 0))
    ∧ (0 < d → normalize_window len .noSpec (.some d) = .ok (d, 0))
    ∧ (0 < n → n ≤ (len : ℤ) → normalize_window len (.int n) .none = .ok (n, n))
    ∧ (0 < (len : ℤ) → 0 ≤ r → r ≤ (len : ℤ) →
        normalize_window len (.win ⟨.none, .some r⟩) .none = .ok ((len : ℤ), r))
    ∧ (0 < w → w ≤ (len : ℤ) →
        normalize_window len (.win ⟨.some w, .none⟩) .none = .ok (w, w))
    ∧ (n ≤ 0 → normalize_window len (.int n) .none = .error .valueError)
    ∧ (w ≤ 0 → normalize_window len (.win ⟨.some w, .some r⟩) .none = .error .valueError)
    ∧ (0 < w → (len : ℤ) < r →
        normalize_window len (.win ⟨.some w, .some r⟩) .none = .error .valueError) := by
  refine ⟨?_, ?_, ?_, ?_, ?_, ?_, ?_, ?_⟩
  · intro h
    show (if (len : ℤ) ≤ 0 then Except.error MqError.valueError
      else if (len : ℤ) < 0 then Except.error MqError.valueError
      else Except.ok ((len : ℤ), 0)) = Except.ok ((len : ℤ), 0)
    rw [if_neg (by omega), if_neg (by omega)]
  · intro h
    show (if d ≤ 0 then Except.error MqError.valueError
      else if (len : ℤ) < 0 then Except.error MqError.valueError
      else Except.ok (d, 0)) = Except.ok (d, 0)
    rw [if_neg (by omega), if_neg (by omega)]
  · intro h1 h2
    show (if n ≤ 0 then Except.error MqError.valueError
      else if (len : ℤ) < n then Except.error MqError.valueError
      else Except.ok (n, n)) = Except.ok (n, n)
    rw [if_neg (by omega), if_neg (by omega)]
  · intro h1 h2 h3
    show (if (len : ℤ) ≤ 0 then Except.error MqError.valueError
      else if (len : ℤ) < r then Except.error MqError.valueError
      else Except.ok ((len : ℤ), r)) = Except.ok ((len : ℤ), r)
    rw [if_neg (by omega), if_neg (by omega)]
  · intro h1 h2
    show (if w ≤ 0 then Except.error MqError.valueError
      else if (len : ℤ) < w then Except.error MqError.valueError
      else Except.ok (w, w)) = Except.ok (w, w)
    rw [if_neg (by omega), if_neg (by omega)]
  · intro h
    show (if n ≤ 0 then Except.error MqError.valueError
      else if (len : ℤ) < n then Except.error MqError.valueError
      else Except.ok (n, n)) = Except.error MqError.valueError
    rw [if_pos (by omega)]
  · intro h
    show (if w ≤ 0 then Except.error MqError.valueError
      else if (len : ℤ) < r then Except.error MqError.valueError
      else Except.ok (w, r)) = Except.error MqError.valueError
    rw [if_pos (by omega)]
  · intro h1 h2
    show (if w ≤ 0 then Except.error MqError.valueError
      else if (len : ℤ) < r then Except.error MqError.valueError
      else Except.ok (w, r)) = Except.error MqError.valueError
    rw [if_neg (by omega), if_pos (by omega)]

/-- Witness for C8 at the tests' concrete inputs (series length 10):
no window yields `(10, 0)`, the integer 5 yields `(5, 5)`, a ramp-only
window yields `(10, 2)`, and a zero window size is rejected. -/
theorem claim_C8_witness :
    normalize_window 10 .noSpec .none = .ok (10, 0)
    ∧ normalize_window 10 (.int 5) .none = .ok (5, 5)
    ∧ normalize_window 10 (.win ⟨.none, .some 2⟩) .none = .ok (10, 2)
    ∧ normalize_window 10 (.int 0) .none = .error .valueError :=
  ⟨(claim_C8 10 5 3 2 1).1 (by decide),
   (claim_C8 10 5 3 2 1).2.2.1 (by decide) (by decide),
   (claim_C8 10 5 3 2 1).2.2.2.1 (by decide) (by decide) (by decide),
   (claim_C8 10 0 3 2 1).2.2.2.2.2.1 (by decide)⟩

/-- C9: `apply_ramp(s, w)` drops the first `w.ramp` entries (the result
has length `length(s) - ramp`); it returns an empty series when the
window size exceeds the series length (with an otherwise valid window);
and it fails with `MqValueError` when the size is not positive, the ramp
is negative, or the ramp exceeds the series length. -/
theorem claim_C9 (x : Series) (w r : ℤ) :
    (0 < w → 0 ≤ r → r ≤ (x.length : ℤ) → w ≤ (x.length : ℤ) →
        apply_ramp x (w, r) = .ok (x.drop r.toNat)
        ∧ (x.drop r.toNat).length = x.length - r.toNat)
    ∧ (0 < w → 0 ≤ r → r ≤ (x.length : ℤ) → (x.length : ℤ) < w →
        apply_ramp x (w, r) = .ok [])
    ∧ (w ≤ 0 ∨ r < 0 ∨ (x.length : ℤ) < r →
        apply_ramp x (w, r) = .error .valueError) := by
  refine ⟨?_, ?_, ?_⟩
  · intro h1 h2 h3 h4
    constructor
    · unfold apply_ramp
      rw [if_neg (by omega), if_neg (by omega), if_neg (by omega)]
    · exact List.length_drop r.toNat x
  · intro h1 h2 h3 h4
    unfold apply_ramp
    rw [if_neg (by omega), if_neg (by omega), if_pos (by omega)]
  · intro h
    unfold apply_ramp
    by_cases hw : w ≤ 0
    · rw [if_pos (by omega)]
    · rw [if_neg (by omega), if_pos (by omega)]

/-- Witness for C9 at the tests' concrete inputs (series of length 10):
window (2, 2) drops two entries leaving eight, window (11, 2) yields the
empty series, and window (0, 0) is rejected. -/
theorem claim_C9_witness :
    apply_ramp (List.replicate 10 (0, Val.num 1)) (2, 2)
      = .ok ((List.replicate 10 (0, Val.num 1)).drop 2)
    ∧ ((List.replicate 10 ((0 : ℕ), Val.num 1)).drop 2).length = 8
    ∧ apply_ramp (List.replicate 10 (0, Val.num 1)) (11, 2) = .ok []
    ∧ apply_ramp (List.replicate 10 (0, Val.num 1)) (0, 0) = .error .valueError := by
  refine ⟨((claim_C9 (List.replicate 10 (0, Val.num 1)) 2 2).1
      (by decide) (by decide) (by decide) (by decide)).1, ?_, ?_, ?_⟩
  · decide
  · exact (claim_C9 (List.replicate 10 (0, Val.num 1)) 11 2).2.1
      (by decide) (by decide) (by decide) (by decide)
  · exact (claim_C9 (List.replicate 10 (0, Val.num 1)) 0 0).2.2 (Or.inl (by decide))

end GSQuant
